import Mathlib

/-!
Verification of the A2OC (Asynchronous Advantage Option-Critic with deliberation
cost) agent in rls/algos/hierarchical/aoc.py.

The per-agent batched numeric state is embedded with lists over ℚ (exact
rationals in place of float32; every claim under scrutiny is about exact
arithmetic identities, control flow and index ranges, not rounding).
Randomness (numpy RNG, Bernoulli termination samples, action sampling) is
passed in explicitly as oracle arguments.  In-place numpy mutation is modelled
by explicit state passing: an operation returns the updated state, and
store_data additionally returns the caller-visible reward array.
-/

namespace AOCSpec

/-- Elementwise ternary zip, the shape of tf.where over three equal-length
batched vectors. -/
def zipWith3 (f : α → β → γ → δ) : List α → List β → List γ → List δ
  | a :: as, b :: bs, c :: cs => f a b c :: zipWith3 f as bs cs
  | _, _, _ => []

/-- tf.reduce_max over a vector (rows the code feeds it are nonempty). -/
def listMax : List ℚ → ℚ
  | [] => 0
  | x :: xs => xs.foldl max x

/-- tf.reduce_mean over a vector. -/
def listMean (xs : List ℚ) : ℚ := xs.sum / (xs.length : ℚ)

/-- tf.argmax over a vector: index of the first occurrence of the maximum. -/
def argmaxIdx (xs : List ℚ) : Nat :=
  (List.range xs.length).foldl (fun best i => if xs.getD i 0 > xs.getD best 0 then i else best) 0

/-- tf.reduce_sum(xs * one_hot(i, len xs)): xs[i] when i is in range, 0
otherwise, which is exactly List.getD. -/
def oneHotDot (xs : List ℚ) (i : Nat) : ℚ := xs.getD i 0

/-- numpy implicit bool-to-number coercion used in (1 - oc_mask) * dc. -/
def boolToRat (b : Bool) : ℚ := if b then 1 else 0

/-- One transition record appended to the trajectory buffer by store_data
(line 158); the opaque observation/action fields are omitted, the numeric
fields the claims speak about are kept. -/
structure Transition where
  r : List ℚ
  done : List ℚ
  value : List ℚ
  log_prob : List ℚ
  beta_adv : List ℚ
  last_options : List Nat
  options : List Nat
deriving DecidableEq

/-- The mutable instance state of an AOC agent that the claims touch:
configuration scalars fixed by __init__, the lazily created option vectors
(optionsInit models hasattr(self, 'options')), the held per-step statistics
self._value / self._log_prob / self._beta_adv, the option-change mask, the
done mask and the trajectory buffer. -/
structure AgentState where
  n_agents : Nat
  options_num : Nat
  dc : ℚ
  eps : ℚ
  optionsInit : Bool
  options : List Nat
  last_options : List Nat
  oc_mask : List Bool
  done_mask : List Bool
  value : List ℚ
  log_prob : List ℚ
  beta_adv : List ℚ
  buffer : List Transition
deriving DecidableEq

/-- AOC.reset (lines 98-100): mark every agent as freshly done. -/
def reset (st : AgentState) : AgentState :=
  { st with done_mask := List.replicate st.n_agents true }

/-- The per-agent reset method (lines 102-104): done mask := done. -/
def resetDone (st : AgentState) (done : List Bool) : AgentState :=
  { st with done_mask := done }

/-- AOC._generate_random_options (lines 106-107): np.random.randint(0,
options_num, n_agents), modelled over an oracle stream of naturals reduced
mod options_num, which captures the numpy contract that every draw lies in
[0, options_num). -/
def generateRandomOptions (options_num n_agents : Nat) (draws : Nat → Nat) : List Nat :=
  (List.range n_agents).map (fun i => draws i % options_num)

/-- The numeric outputs of AOC._get_action that the agent keeps (the sampled
action itself and the recurrent state are opaque to every claim). -/
structure GetActionResult where
  q_o : List ℚ
  beta_adv : List ℚ
  new_options : List Nat
  max_options : List Nat
deriving DecidableEq

/-- AOC._get_action (lines 127-150), numeric part.  q is the network's
option-value batch [B rows of P entries]; betaSamples are the Bernoulli
draws of beta_dist.sample() (0 = hold, 1 = terminate).
q_o = reduce_sum(q * one_hot(options)) (line 144);
beta_adv = q_o - ((1-eps)*max + eps*mean) (line 145);
max_options = argmax q (line 146);
new_options = where(sample < 1, options, max_options) (line 149). -/
def getAction (eps : ℚ) (q : List (List ℚ)) (options : List Nat)
    (betaSamples : List Nat) : GetActionResult :=
  let q_o := List.zipWith (fun row o => oneHotDot row o) q options
  let beta_adv := List.zipWith
    (fun row qo => qo - ((1 - eps) * listMax row + eps * listMean row)) q q_o
  let max_options := q.map argmaxIdx
  let new_options := zipWith3 (fun s o m => if s < 1 then o else m) betaSamples options max_options
  ⟨q_o, beta_adv, new_options, max_options⟩

/-- AOC.choose_action (lines 109-125).  logProbSample is the log-probability
of the sampled action (oracle: the sampling itself is stochastic and opaque);
draws feeds the lazy random option initialization of line 111.
Line order is kept: options lazily created (110-111), last_options := options
(112), network call (116), done-mask override with max_options (118),
done mask cleared (119), held value/log-prob/beta-advantage written with the
1e-10 and deliberation-cost offsets (120-122), oc_mask := (new == old)
(123, true means the option was held), options := new_options (124). -/
def choose_action (st : AgentState) (q : List (List ℚ)) (logProbSample : List ℚ)
    (betaSamples : List Nat) (draws : Nat → Nat) : AgentState :=
  let options := if st.optionsInit then st.options
                 else generateRandomOptions st.options_num st.n_agents draws
  let res := getAction st.eps q options betaSamples
  let new_options := zipWith3 (fun d m n => if d then m else n)
    st.done_mask res.max_options res.new_options
  { st with
      optionsInit := true
      options := new_options
      last_options := options
      oc_mask := List.zipWith (fun n o => n == o) new_options options
      done_mask := List.replicate st.n_agents false
      value := res.q_o
      log_prob := logProbSample.map (fun x => x + 1 / 10 ^ 10)
      beta_adv := res.beta_adv.map (fun x => x + st.dc) }

/-- AOC.store_data (lines 152-163).  The reward update r -= (1 - oc_mask) * dc
(line 157) mutates the caller's numpy array in place; the adjusted array is
returned as the second component to model the caller's view after the call.
A transition holding the adjusted reward and the held statistics is appended
(lines 158-161) and oc_mask is reset with tf.zeros_like, i.e. all false
(line 163). -/
def store_data (st : AgentState) (r : List ℚ) (done : List ℚ) : AgentState × List ℚ :=
  let adjusted := List.zipWith (fun x m => x - (1 - boolToRat m) * st.dc) r st.oc_mask
  let tr : Transition :=
    { r := adjusted, done := done, value := st.value, log_prob := st.log_prob,
      beta_adv := st.beta_adv, last_options := st.last_options, options := st.options }
  ({ st with
      buffer := st.buffer ++ [tr],
      oc_mask := List.replicate st.oc_mask.length false }, adjusted)

/-- The epoch loop of AOC.learn._train (lines 185-190).  klSeq i is the KL
realized by the i-th executed gradient step (each loop iteration performs
exactly one gradient step, line 187); the loop breaks as soon as
kl > kl_stop, recording early_step = i.  Returns (number of gradient steps
executed, early_step, kl of the last executed step). -/
def trainLoopGo (klSeq : Nat → ℚ) (kl_stop : ℚ) :
    Nat → Nat → Nat → Nat → ℚ → Nat × Nat × ℚ
  | 0, _, steps, early_step, kl => (steps, early_step, kl)
  | rem + 1, i, steps, early_step, _kl =>
      let kl' := klSeq i
      if kl_stop < kl' then (steps + 1, i, kl')
      else trainLoopGo klSeq kl_stop rem (i + 1) (steps + 1) early_step kl'

/-- for i in range(epoch) with early_step initialized to 0 (line 185);
the kl accumulator starts at a junk value, matching Python where kl is
simply unbound until the first iteration (epoch is at least 1 in any
meaningful configuration). -/
def trainLoop (klSeq : Nat → ℚ) (kl_stop : ℚ) (epoch : Nat) : Nat × Nat × ℚ :=
  trainLoopGo klSeq kl_stop epoch 0 0 0 0

/-- The KL-coefficient controller after the epoch loop (lines 192-195). -/
def updateKlCoef (kl_high kl_low kl_alpha : ℚ) (kl kl_coef : ℚ) : ℚ :=
  if kl_high < kl then kl_coef * kl_alpha
  else if kl < kl_low then kl_coef / kl_alpha
  else kl_coef

/-- Result of one AOC.learn._train call: gradient steps executed, reported
early_step, last KL, and the updated KL coefficient. -/
structure TrainResult where
  steps : Nat
  early_step : Nat
  kl : ℚ
  kl_coef : ℚ
deriving DecidableEq

/-- AOC.learn._train (lines 184-207): the epoch loop followed by the
KL-coefficient update driven by the kl of the last executed epoch. -/
def learnTrain (klSeq : Nat → ℚ) (kl_stop kl_high kl_low kl_alpha : ℚ)
    (epoch : Nat) (kl_coef : ℚ) : TrainResult :=
  let r := trainLoop klSeq kl_stop epoch
  ⟨r.1, r.2.1, r.2.2, updateKlCoef kl_high kl_low kl_alpha r.2.2 kl_coef⟩

/-- The derived KL thresholds of __init__ (lines 60-63). -/
def kl_stop_of (kl_target kl_target_earlystop : ℚ) : ℚ := kl_target * kl_target_earlystop

/-- kl_high = kl_target * kl_beta[-1] (line 63). -/
def kl_high_of (kl_target kl_beta_high : ℚ) : ℚ := kl_target * kl_beta_high

/-- kl_low = kl_target * kl_beta[0] (line 62). -/
def kl_low_of (kl_target kl_beta_low : ℚ) : ℚ := kl_target * kl_beta_low

/-- The field names unpacked as train inputs: learn's train_data_list
(line 214), the exact tuple AOC.train destructures (line 220) plus the
trailing cell_state. -/
def train_data_list : List String :=
  ["s", "visual_s", "a", "discounted_reward", "log_prob", "gae_adv",
   "value", "beta_adv", "last_options", "options"]

/-- The field names stored in the trajectory buffer:
initialize_data_buffer's data_name_list (line 96). -/
def data_name_list : List String :=
  ["s", "visual_s", "a", "r", "s_", "visual_s_", "done",
   "value", "log_prob", "beta_adv", "last_options", "options"]

/-- The termination loss of AOC.train (lines 267-268) in the
terminal_mask = False branch: beta_s = reduce_sum(beta * one_hot(last_options))
per row, beta_loss = mean(beta_s * beta_advantage). -/
def beta_loss (beta : List (List ℚ)) (last_options : List Nat)
    (beta_advantage : List ℚ) : ℚ :=
  listMean (List.zipWith (fun bs adv => bs * adv)
    (List.zipWith (fun row lo => oneHotDot row lo) beta last_options) beta_advantage)

/-- Modelled from the spec: "Options for agents with done_mask = true are
redrawn uniformly at random over [0, options_num) at the next inference
call" — the redraw a uniform sampler would produce from the same oracle
stream the code's random option generator consumes.  Used only to compare
the spec's words against the code's actual behaviour. -/
def specRedrawnOptions (options_num n_agents : Nat) (draws : Nat → Nat) : List Nat :=
  generateRandomOptions options_num n_agents draws

/-- A concrete three-agent state for the executable checks: two options,
dc = 1/100, eps = 1/10, oc_mask = [true, false, true] as in the spec's
reward-adjustment example. -/
def exState : AgentState :=
  { n_agents := 3, options_num := 2, dc := 1/100, eps := 1/10,
    optionsInit := true, options := [0, 1, 0], last_options := [0, 1, 0],
    oc_mask := [true, false, true], done_mask := [false, true, false],
    value := [0, 0, 0], log_prob := [0, 0, 0], beta_adv := [0, 0, 0], buffer := [] }

/-- A concrete single-agent state whose agent is flagged done. -/
def exStOne : AgentState :=
  { n_agents := 1, options_num := 2, dc := 1/100, eps := 1/10,
    optionsInit := true, options := [0], last_options := [0],
    oc_mask := [true], done_mask := [true],
    value := [0], log_prob := [0], beta_adv := [0], buffer := [] }

/-! General list lemmas used by several claim proofs. -/

theorem zipWith_ext (f g : α → β → γ) (h : ∀ a b, f a b = g a b) :
    ∀ (l₁ : List α) (l₂ : List β), List.zipWith f l₁ l₂ = List.zipWith g l₁ l₂ := by
  intro l₁
  induction l₁ with
  | nil => intro l₂; simp
  | cons a as ih =>
    intro l₂
    cases l₂ with
    | nil => simp
    | cons b bs => simp [h a b, ih bs]

theorem zipWith_zipWith_left (f : α → γ → δ) (g : α → β → γ) :
    ∀ (l₁ : List α) (l₂ : List β),
      List.zipWith f l₁ (List.zipWith g l₁ l₂) = List.zipWith (fun a b => f a (g a b)) l₁ l₂ := by
  intro l₁
  induction l₁ with
  | nil => intro l₂; simp
  | cons a as ih =>
    intro l₂
    cases l₂ with
    | nil => simp
    | cons b bs => simp [ih bs]

theorem zipWith3_length (f : α → β → γ → δ) :
    ∀ (as : List α) (bs : List β) (cs : List γ),
      (zipWith3 f as bs cs).length = min as.length (min bs.length cs.length) := by
  intro as
  induction as with
  | nil => intro bs cs; cases bs <;> cases cs <;> simp [zipWith3]
  | cons a as ih =>
    intro bs cs
    cases bs with
    | nil => simp [zipWith3]
    | cons b bs' =>
      cases cs with
      | nil => simp [zipWith3]
      | cons c cs' =>
        simp [zipWith3, ih bs' cs']
        omega

theorem mem_zipWith3 {f : α → β → γ → δ} {as : List α} {bs : List β} {cs : List γ} {x : δ}
    (h : x ∈ zipWith3 f as bs cs) :
    ∃ a b c, a ∈ as ∧ b ∈ bs ∧ c ∈ cs ∧ x = f a b c := by
  induction as generalizing bs cs with
  | nil => simp [zipWith3] at h
  | cons a as ih =>
    cases bs with
    | nil => simp [zipWith3] at h
    | cons b bs' =>
      cases cs with
      | nil => simp [zipWith3] at h
      | cons c cs' =>
        rw [show zipWith3 f (a :: as) (b :: bs') (c :: cs') = f a b c :: zipWith3 f as bs' cs'
          from rfl] at h
        rcases List.mem_cons.mp h with h | h
        · exact ⟨a, b, c, by simp, by simp, by simp, h⟩
        · obtain ⟨a', b', c', ha, hb, hc, rfl⟩ := ih h
          exact ⟨a', b', c', by simp [ha], by simp [hb], by simp [hc], rfl⟩

theorem zipWith3_getD (f : α → β → γ → δ) (da : α) (db : β) (dg : γ) (dd : δ) :
    ∀ (as : List α) (bs : List β) (cs : List γ) (i : Nat),
      i < as.length → i < bs.length → i < cs.length →
      (zipWith3 f as bs cs).getD i dd = f (as.getD i da) (bs.getD i db) (cs.getD i dg) := by
  intro as
  induction as with
  | nil => intro bs cs i h _ _; simp at h
  | cons a as ih =>
    intro bs cs i h1 h2 h3
    cases bs with
    | nil => simp at h2
    | cons b bs' =>
      cases cs with
      | nil => simp at h3
      | cons c cs' =>
        cases i with
        | zero => rfl
        | succ n =>
          rw [show zipWith3 f (a :: as) (b :: bs') (c :: cs') = f a b c :: zipWith3 f as bs' cs'
            from rfl]
          simp only [List.getD_cons_succ]
          exact ih bs' cs' n (by simpa using h1) (by simpa using h2) (by simpa using h3)

theorem getD_map (f : α → β) (da : α) (db : β) :
    ∀ (l : List α) (i : Nat), i < l.length → (l.map f).getD i db = f (l.getD i da) := by
  intro l
  induction l with
  | nil => intro i h; simp at h
  | cons a l ih =>
    intro i h
    cases i with
    | zero => rfl
    | succ n => simpa using ih n (by simpa using h)

theorem zipWith_replicate_right (f : α → β → γ) (b : β) :
    ∀ (l : List α) (n : Nat), l.length ≤ n →
      List.zipWith f l (List.replicate n b) = l.map (fun a => f a b) := by
  intro l
  induction l with
  | nil => intro n _; simp
  | cons a as ih =>
    intro n h
    cases n with
    | zero => simp at h
    | succ m => simp [List.replicate_succ, ih m (by simpa using h)]

theorem getLast?_append_one (l : List α) (a : α) : (l ++ [a]).getLast? = some a := by
  induction l with
  | nil => rfl
  | cons x xs ih =>
    cases xs with
    | nil => rfl
    | cons y ys => simpa [List.cons_append, List.getLast?_cons_cons] using ih

/-! Facts about the embedded operations shared by the claim proofs. -/

theorem argmax_foldl_lt (xs : List ℚ) (n : Nat) :
    ∀ (l : List Nat) (b : Nat), b < n → (∀ i ∈ l, i < n) →
      l.foldl (fun best i => if xs.getD i 0 > xs.getD best 0 then i else best) b < n := by
  intro l
  induction l with
  | nil => intro b hb _; simpa using hb
  | cons a l ih =>
    intro b hb hl
    simp only [List.foldl_cons]
    apply ih
    · split
      · exact hl a (by simp)
      · exact hb
    · intro i hi
      exact hl i (List.mem_cons_of_mem _ hi)

theorem argmaxIdx_lt (xs : List ℚ) (h : 0 < xs.length) : argmaxIdx xs < xs.length := by
  unfold argmaxIdx
  exact argmax_foldl_lt xs xs.length (List.range xs.length) 0 h
    (fun i hi => List.mem_range.mp hi)

theorem generateRandomOptions_lt (options_num n_agents : Nat) (draws : Nat → Nat)
    (h : 0 < options_num) :
    ∀ o ∈ generateRandomOptions options_num n_agents draws, o < options_num := by
  intro o ho
  simp only [generateRandomOptions, List.mem_map] at ho
  obtain ⟨i, _, rfl⟩ := ho
  exact Nat.mod_lt _ h

theorem store_data_reward (st : AgentState) (r done : List ℚ) :
    (store_data st r done).2 =
      List.zipWith (fun x m => if m then x else x - st.dc) r st.oc_mask := by
  show List.zipWith (fun x m => x - (1 - boolToRat m) * st.dc) r st.oc_mask = _
  exact zipWith_ext _ _ (fun x m => by cases m <;> simp [boolToRat]) r st.oc_mask

theorem store_data_last (st : AgentState) (r done : List ℚ) :
    ((store_data st r done).1.buffer.getLast?).map Transition.r =
      some ((store_data st r done).2) := by
  have h : (store_data st r done).1.buffer
      = st.buffer ++ [Transition.mk ((store_data st r done).2) done st.value st.log_prob
          st.beta_adv st.last_options st.options] := rfl
  rw [h, getLast?_append_one]
  rfl

theorem optionsInit_if_reduce (st : AgentState) (draws : Nat → Nat)
    (hInit : st.optionsInit = true) :
    (if st.optionsInit then st.options
      else generateRandomOptions st.options_num st.n_agents draws) = st.options := by
  simp [hInit]

theorem choose_action_options_getD (st : AgentState) (q : List (List ℚ)) (lp : List ℚ)
    (bs : List Nat) (draws : Nat → Nat) (i : Nat)
    (hInit : st.optionsInit = true)
    (hiD : i < st.done_mask.length) (hiQ : i < q.length)
    (hiO : i < st.options.length) (hiB : i < bs.length) :
    (choose_action st q lp bs draws).options.getD i 0 =
      if st.done_mask.getD i false then argmaxIdx (q.getD i [])
      else if bs.getD i 0 < 1 then st.options.getD i 0
      else argmaxIdx (q.getD i []) := by
  simp only [choose_action, getAction, optionsInit_if_reduce st draws hInit]
  rw [zipWith3_getD (fun d m n => if d then m else n) false 0 0 0 st.done_mask
    (q.map argmaxIdx)
    (zipWith3 (fun s o m => if s < 1 then o else m) bs st.options (q.map argmaxIdx)) i hiD
    (by simpa using hiQ)
    (by rw [zipWith3_length]; simp only [List.length_map]; omega)]
  rw [zipWith3_getD (fun s o m => if s < 1 then o else m) 0 0 0 0 bs st.options
    (q.map argmaxIdx) i hiB hiO (by simpa using hiQ)]
  rw [getD_map argmaxIdx ([] : List ℚ) 0 q i hiQ]

theorem trainLoopGo_zero (klSeq : Nat → ℚ) (kl_stop : ℚ) (i steps early : Nat) (kl : ℚ) :
    trainLoopGo klSeq kl_stop 0 i steps early kl = (steps, early, kl) := rfl

theorem trainLoopGo_succ (klSeq : Nat → ℚ) (kl_stop : ℚ) (rem i steps early : Nat) (kl : ℚ) :
    trainLoopGo klSeq kl_stop (rem + 1) i steps early kl =
      if kl_stop < klSeq i then (steps + 1, i, klSeq i)
      else trainLoopGo klSeq kl_stop rem (i + 1) (steps + 1) early (klSeq i) := rfl

theorem trainLoopGo_break (klSeq : Nat → ℚ) (kl_stop : ℚ) :
    ∀ (t rem i steps early : Nat) (kl : ℚ), t < rem →
      (∀ j, j < t → ¬ kl_stop < klSeq (i + j)) → kl_stop < klSeq (i + t) →
      trainLoopGo klSeq kl_stop rem i steps early kl
        = (steps + t + 1, i + t, klSeq (i + t)) := by
  intro t
  induction t with
  | zero =>
    intro rem i steps early kl hrem _ h3
    match rem, hrem with
    | rem + 1, _ =>
      simp only [trainLoopGo]
      rw [if_pos (by simpa using h3)]
      simp
  | succ t ih =>
    intro rem i steps early kl hrem h2 h3
    match rem, hrem with
    | rem + 1, hrem =>
      simp only [trainLoopGo]
      rw [if_neg (by simpa using h2 0 (Nat.succ_pos t))]
      have hrec := ih rem (i + 1) (steps + 1) early (klSeq i) (by omega)
        (fun j hj => by
          have hh := h2 (j + 1) (by omega)
          have e : i + (j + 1) = i + 1 + j := by omega
          rwa [e] at hh)
        (by
          have e : i + (t + 1) = i + 1 + t := by omega
          rwa [e] at h3)
      rw [hrec]
      have e1 : steps + 1 + t + 1 = steps + (t + 1) + 1 := by omega
      have e2 : i + 1 + t = i + (t + 1) := by omega
      rw [e1, e2]

theorem trainLoopGo_last_kl (klSeq : Nat → ℚ) (kl_stop : ℚ) :
    ∀ (rem i steps early : Nat) (kl : ℚ), 1 ≤ rem →
      (trainLoopGo klSeq kl_stop rem i steps early kl).2.2 =
        klSeq (i + ((trainLoopGo klSeq kl_stop rem i steps early kl).1 - steps) - 1) ∧
      steps + 1 ≤ (trainLoopGo klSeq kl_stop rem i steps early kl).1 := by
  intro rem
  induction rem with
  | zero => intro i steps early kl h; exact absurd h (by omega)
  | succ n ih =>
    intro i steps early kl _
    rw [trainLoopGo_succ]
    by_cases hb : kl_stop < klSeq i
    · rw [if_pos hb]
      refine ⟨?_, by omega⟩
      have e : i + (steps + 1 - steps) - 1 = i := by omega
      simp [e]
    · rw [if_neg hb]
      cases n with
      | zero =>
        rw [trainLoopGo_zero]
        refine ⟨?_, by omega⟩
        have e : i + (steps + 1 - steps) - 1 = i := by omega
        simp [e]
      | succ m =>
        obtain ⟨h1, h2⟩ := ih (i + 1) (steps + 1) early (klSeq i) (by omega)
        refine ⟨?_, by omega⟩
        rw [h1]
        congr 1
        omega

/-! The claims. -/

/-- Claim C1: for every store_data call, the reward appended to the trajectory
buffer equals the raw reward minus the deliberation cost exactly for the agents
whose oc_mask entry is false (option changed), and the raw reward unchanged
where the option was held; in particular with oc_mask [true, false, true],
raw rewards [1, 1, 1] and deliberation cost 1/100 the recorded rewards are
[1, 99/100, 1]. -/
theorem C1_reward_adjustment (st : AgentState) (r done : List ℚ) :
    ((store_data st r done).1.buffer.getLast?).map Transition.r =
      some (List.zipWith (fun x m => if m then x else x - st.dc) r st.oc_mask) ∧
    ((store_data exState [1, 1, 1] [0, 0, 0]).1.buffer.getLast?).map Transition.r =
      some [1, 99/100, 1] := by
  constructor
  · rw [store_data_last, store_data_reward]
  · rw [store_data_last, store_data_reward]
    norm_num [exState]

/-- Claim C2: the beta advantage held for the subsequent store equals
Q(selected option) minus the mixture baseline (1-eps)*max Q + eps*mean Q,
plus the deliberation cost, exactly. -/
theorem C2_beta_advantage (st : AgentState) (q : List (List ℚ)) (lp : List ℚ)
    (bs : List Nat) (draws : Nat → Nat) (hInit : st.optionsInit = true) :
    (choose_action st q lp bs draws).beta_adv =
      List.zipWith (fun row o =>
        oneHotDot row o - ((1 - st.eps) * listMax row + st.eps * listMean row) + st.dc)
        q st.options := by
  simp only [choose_action, getAction, optionsInit_if_reduce st draws hInit]
  rw [List.map_zipWith, zipWith_zipWith_left]

/-- Witness for C2 at a concrete three-agent state and value batch. -/
theorem C2_witness :
    (choose_action exState [[1, 2], [3, 4], [5, 6]] [0, 0, 0] [0, 0, 0]
        (fun _ => 0)).beta_adv =
      List.zipWith (fun row o =>
        oneHotDot row o - ((1 - exState.eps) * listMax row + exState.eps * listMean row)
          + exState.dc)
        [[1, 2], [3, 4], [5, 6]] exState.options :=
  C2_beta_advantage exState [[1, 2], [3, 4], [5, 6]] [0, 0, 0] [0, 0, 0] (fun _ => 0) rfl

/-- Claim C3 counterexample: immediately after a store_data call the
option-change mask is all-false (tf.zeros_like), not all-true as claimed. -/
theorem C3_counterexample :
    (store_data exState [1, 1, 1] [0, 0, 0]).1.oc_mask = [false, false, false] ∧
    (store_data exState [1, 1, 1] [0, 0, 0]).1.oc_mask ≠ List.replicate 3 true :=
  ⟨rfl, by decide⟩

/-- Claim C3 amended: immediately after every store_data call the
option-change mask is reset to all-false (the value tf.zeros_like produces),
which under the mask's convention (true = option held) is the "switched"
value, and it keeps that value until the next choose_action overwrites it. -/
theorem C3_oc_mask_reset (st : AgentState) (r done : List ℚ) :
    (store_data st r done).1.oc_mask = List.replicate st.oc_mask.length false := rfl

/-- Claim C4 counterexample: a done-flagged agent's option is not redrawn
uniformly at random.  With Q row [5, 7] the code's next option is 1 (argmax)
whatever the oracle stream provides, while the spec's uniform redraw over
[0, 2) reading the same stream (all-zero draws) gives 0. -/
theorem C4_counterexample :
    (choose_action exStOne [[5, 7]] [0] [0] (fun _ => 0)).options = [1] ∧
    (choose_action exStOne [[5, 7]] [0] [0] (fun _ => 1)).options = [1] ∧
    specRedrawnOptions 2 1 (fun _ => 0) = [0] ∧
    (1 : Nat) ≠ 0 := by
  refine ⟨?_, ?_, by decide, by decide⟩ <;>
    norm_num [choose_action, getAction, argmaxIdx, exStOne, zipWith3, oneHotDot,
      List.range_succ]

/-- Claim C4 amended: the uniform random draw initializes options only at the
very first choose_action call (when they do not exist yet); at a choose_action
call, an agent whose done_mask is true receives argmax Q as its next option
(not a random redraw), and an agent with done_mask false keeps its previous
option unless the termination gate fires, in which case it also gets
argmax Q. -/
theorem C4_option_after_done (st : AgentState) (q : List (List ℚ)) (lp : List ℚ)
    (bs : List Nat) (draws : Nat → Nat) (i : Nat)
    (hInit : st.optionsInit = true)
    (hiD : i < st.done_mask.length) (hiQ : i < q.length)
    (hiO : i < st.options.length) (hiB : i < bs.length) :
    (choose_action st q lp bs draws).options.getD i 0 =
      if st.done_mask.getD i false then argmaxIdx (q.getD i [])
      else if bs.getD i 0 < 1 then st.options.getD i 0
      else argmaxIdx (q.getD i []) :=
  choose_action_options_getD st q lp bs draws i hInit hiD hiQ hiO hiB

/-- Witness for C4 amended: at the concrete done-flagged one-agent state the
resulting option is the argmax of the Q row. -/
theorem C4_witness :
    (choose_action exStOne [[5, 7]] [0] [1] (fun _ => 0)).options.getD 0 0
      = argmaxIdx [5, 7] := by
  have h := C4_option_after_done exStOne [[5, 7]] [0] [1] (fun _ => 0) 0 rfl
    (by decide) (by decide) (by decide) (by decide)
  simpa [exStOne] using h

/-- Claim C5: an agent whose done_mask was true receives argmax Q as its next
option whatever the termination Bernoulli sample is, and the done mask is
cleared to all-false afterwards. -/
theorem C5_done_gets_max_option (st : AgentState) (q : List (List ℚ)) (lp : List ℚ)
    (bs : List Nat) (draws : Nat → Nat) (i : Nat)
    (hInit : st.optionsInit = true)
    (hdone : st.done_mask.getD i false = true)
    (hiD : i < st.done_mask.length) (hiQ : i < q.length)
    (hiO : i < st.options.length) (hiB : i < bs.length) :
    (choose_action st q lp bs draws).options.getD i 0 = argmaxIdx (q.getD i []) ∧
    (choose_action st q lp bs draws).done_mask = List.replicate st.n_agents false := by
  constructor
  · rw [choose_action_options_getD st q lp bs draws i hInit hiD hiQ hiO hiB, hdone]
    simp
  · rfl

/-- Witness for C5: the done-flagged agent's option equals argmax Q both for
a termination sample of 0 and of 1, and the done mask is cleared. -/
theorem C5_witness :
    ((choose_action exStOne [[5, 7]] [0] [0] (fun _ => 0)).options.getD 0 0
        = argmaxIdx ([[(5 : ℚ), 7]].getD 0 []) ∧
      (choose_action exStOne [[5, 7]] [0] [0] (fun _ => 0)).done_mask
        = List.replicate exStOne.n_agents false) ∧
    ((choose_action exStOne [[5, 7]] [0] [1] (fun _ => 0)).options.getD 0 0
        = argmaxIdx ([[(5 : ℚ), 7]].getD 0 []) ∧
      (choose_action exStOne [[5, 7]] [0] [1] (fun _ => 0)).done_mask
        = List.replicate exStOne.n_agents false) :=
  ⟨C5_done_gets_max_option exStOne [[5, 7]] [0] [0] (fun _ => 0) 0 rfl (by decide)
      (by decide) (by decide) (by decide) (by decide),
    C5_done_gets_max_option exStOne [[5, 7]] [0] [1] (fun _ => 0) 0 rfl (by decide)
      (by decide) (by decide) (by decide) (by decide)⟩

/-- Claim C6: if the realized KL first exceeds kl_stop at epoch index i, the
epoch loop executes exactly i + 1 gradient steps (indices 0..i), aborts the
remaining epochs, and reports early_step = i. -/
theorem C6_early_stop (klSeq : Nat → ℚ) (kl_stop : ℚ) (epoch i : Nat)
    (h1 : i < epoch) (h2 : ∀ j, j < i → ¬ kl_stop < klSeq j)
    (h3 : kl_stop < klSeq i) :
    trainLoop klSeq kl_stop epoch = (i + 1, i, klSeq i) := by
  have h := trainLoopGo_break klSeq kl_stop i epoch 0 0 0 0 h1
    (fun j hj => by simpa using h2 j hj) (by simpa using h3)
  simpa [trainLoop] using h

/-- Witness for C6: epoch = 4 with a KL trace exceeding the stop threshold at
index 2 executes exactly 3 gradient steps and reports early_step = 2. -/
theorem C6_witness :
    trainLoop (fun j => if j = 2 then (1 : ℚ) else 0) (1/2) 4 = (3, 2, 1) := by
  have h := C6_early_stop (fun j => if j = 2 then (1 : ℚ) else 0) (1/2) 4 2
    (by norm_num)
    (by intro j hj; interval_cases j <;> norm_num)
    (by norm_num)
  simpa using h

/-- Claim C7: after the epoch loop the KL coefficient is multiplied by
kl_alpha when the last executed epoch's KL is strictly above kl_high, divided
by kl_alpha when strictly below kl_low, and unchanged otherwise (boundary
values included), the KL used being the one of the last executed gradient
step. -/
theorem C7_kl_coef_update (klSeq : Nat → ℚ) (kl_stop kl_high kl_low kl_alpha coef : ℚ)
    (epoch : Nat) (hband : kl_low ≤ kl_high) :
    (kl_high < (learnTrain klSeq kl_stop kl_high kl_low kl_alpha epoch coef).kl →
      (learnTrain klSeq kl_stop kl_high kl_low kl_alpha epoch coef).kl_coef
        = coef * kl_alpha) ∧
    ((learnTrain klSeq kl_stop kl_high kl_low kl_alpha epoch coef).kl < kl_low →
      (learnTrain klSeq kl_stop kl_high kl_low kl_alpha epoch coef).kl_coef
        = coef / kl_alpha) ∧
    (kl_low ≤ (learnTrain klSeq kl_stop kl_high kl_low kl_alpha epoch coef).kl →
      (learnTrain klSeq kl_stop kl_high kl_low kl_alpha epoch coef).kl ≤ kl_high →
      (learnTrain klSeq kl_stop kl_high kl_low kl_alpha epoch coef).kl_coef = coef) ∧
    (1 ≤ epoch →
      (learnTrain klSeq kl_stop kl_high kl_low kl_alpha epoch coef).kl
        = klSeq ((learnTrain klSeq kl_stop kl_high kl_low kl_alpha epoch coef).steps - 1)) := by
  have hkl : (learnTrain klSeq kl_stop kl_high kl_low kl_alpha epoch coef).kl
      = (trainLoop klSeq kl_stop epoch).2.2 := rfl
  have hco : (learnTrain klSeq kl_stop kl_high kl_low kl_alpha epoch coef).kl_coef
      = updateKlCoef kl_high kl_low kl_alpha (trainLoop klSeq kl_stop epoch).2.2 coef := rfl
  have hst : (learnTrain klSeq kl_stop kl_high kl_low kl_alpha epoch coef).steps
      = (trainLoop klSeq kl_stop epoch).1 := rfl
  refine ⟨?_, ?_, ?_, ?_⟩
  · intro h
    rw [hkl] at h
    rw [hco]
    simp only [updateKlCoef]
    rw [if_pos h]
  · intro h
    rw [hkl] at h
    rw [hco]
    simp only [updateKlCoef]
    rw [if_neg (not_lt.mpr (le_of_lt (lt_of_lt_of_le h hband))), if_pos h]
  · intro h1 h2
    rw [hkl] at h1 h2
    rw [hco]
    simp only [updateKlCoef]
    rw [if_neg (not_lt.mpr h2), if_neg (not_lt.mpr h1)]
  · intro he
    obtain ⟨h1, _⟩ := trainLoopGo_last_kl klSeq kl_stop epoch 0 0 0 0 he
    rw [hkl, hst]
    simpa [trainLoop] using h1

/-- Witness for C7: with a constant KL trace of 1 over a single epoch, the
coefficient 2 is multiplied by alpha = 3 when 1 is above the high band,
divided by 3 when below the low band, unchanged inside the band, and the
reported KL is the one of the last executed step. -/
theorem C7_witness :
    (learnTrain (fun _ => 1) 10 (1/2) (1/4) 3 1 2).kl_coef = 2 * 3 ∧
    (learnTrain (fun _ => 1) 10 4 2 3 1 2).kl_coef = 2 / 3 ∧
    (learnTrain (fun _ => 1) 10 2 (1/2) 3 1 2).kl_coef = 2 ∧
    (learnTrain (fun _ => 1) 10 (1/2) (1/4) 3 1 2).kl
      = (fun _ : Nat => (1 : ℚ))
          ((learnTrain (fun _ => 1) 10 (1/2) (1/4) 3 1 2).steps - 1) :=
  ⟨(C7_kl_coef_update (fun _ => 1) 10 (1/2) (1/4) 3 2 1 (by norm_num)).1
      (by norm_num [learnTrain, trainLoop, trainLoopGo_succ, trainLoopGo_zero]),
    (C7_kl_coef_update (fun _ => 1) 10 4 2 3 2 1 (by norm_num)).2.1
      (by norm_num [learnTrain, trainLoop, trainLoopGo_succ, trainLoopGo_zero]),
    (C7_kl_coef_update (fun _ => 1) 10 2 (1/2) 3 2 1 (by norm_num)).2.2.1
      (by norm_num [learnTrain, trainLoop, trainLoopGo_succ, trainLoopGo_zero])
      (by norm_num [learnTrain, trainLoop, trainLoopGo_succ, trainLoopGo_zero]),
    (C7_kl_coef_update (fun _ => 1) 10 (1/2) (1/4) 3 2 1 (by norm_num)).2.2.2
      (by norm_num)⟩

/-- Claim C8: the termination loss is mean(beta(last_option) * beta_advantage)
(checked on a concrete two-sample batch), but the terminal_mask zeroing cannot
operate as claimed: the buffer stores a "done" field, yet "done" is not among
the fields handed to the gradient-step function, whose terminal_mask branch
reads an undefined name. -/
theorem C8_terminal_mask_done_missing :
    ("done" ∈ data_name_list ∧ "done" ∉ train_data_list) ∧
    beta_loss [[1/2, 1/4], [1/3, 1/5]] [0, 1] [2, 3] = 4/5 := by
  refine ⟨by decide, ?_⟩
  norm_num [beta_loss, listMean, oneHotDot]

/-- Claim C9: every option held after a choose_action call lies in
[0, options_num) — whether drawn at lazy random initialization, retained,
taken from the termination gate, or overridden for a done-flagged agent —
and store_data leaves the held option vectors unchanged. -/
theorem C9_option_range (st : AgentState) (q : List (List ℚ)) (lp : List ℚ)
    (bs : List Nat) (draws : Nat → Nat) (r d : List ℚ)
    (hnum : 0 < st.options_num)
    (hopt : ∀ o ∈ st.options, o < st.options_num)
    (hq : ∀ row ∈ q, row.length = st.options_num) :
    (∀ o ∈ (choose_action st q lp bs draws).options, o < st.options_num) ∧
    (∀ o ∈ (choose_action st q lp bs draws).last_options, o < st.options_num) ∧
    (store_data st r d).1.options = st.options ∧
    (store_data st r d).1.last_options = st.last_options := by
  have hopts : ∀ o ∈ (if st.optionsInit then st.options
      else generateRandomOptions st.options_num st.n_agents draws), o < st.options_num := by
    split
    · exact hopt
    · exact generateRandomOptions_lt _ _ _ hnum
  have hmax : ∀ o ∈ q.map argmaxIdx, o < st.options_num := by
    intro o ho
    rcases List.mem_map.mp ho with ⟨row, hrow, rfl⟩
    have h := argmaxIdx_lt row (by rw [hq row hrow]; exact hnum)
    rwa [hq row hrow] at h
  have hinner : ∀ o ∈ zipWith3 (fun s o m => if s < 1 then o else m) bs
      (if st.optionsInit then st.options
        else generateRandomOptions st.options_num st.n_agents draws)
      (q.map argmaxIdx), o < st.options_num := by
    intro o ho
    rcases mem_zipWith3 ho with ⟨s, o', m, _, ho', hm, rfl⟩
    by_cases hs : s < 1
    · simpa [hs] using hopts o' ho'
    · simpa [hs] using hmax m hm
  refine ⟨?_, ?_, rfl, rfl⟩
  · intro o ho
    simp only [choose_action, getAction] at ho
    rcases mem_zipWith3 ho with ⟨dn, m, n, _, hm, hn, rfl⟩
    cases dn
    · simpa using hinner n hn
    · simpa using hmax m hm
  · intro o ho
    simp only [choose_action] at ho
    exact hopts o ho

/-- Witness for C9 at the concrete three-agent state with two options. -/
theorem C9_witness :
    (∀ o ∈ (choose_action exState [[1, 2], [3, 4], [5, 6]] [0, 0, 0] [0, 1, 0]
        (fun _ => 0)).options, o < exState.options_num) ∧
    (∀ o ∈ (choose_action exState [[1, 2], [3, 4], [5, 6]] [0, 0, 0] [0, 1, 0]
        (fun _ => 0)).last_options, o < exState.options_num) ∧
    (store_data exState [1, 1, 1] [0, 0, 0]).1.options = exState.options ∧
    (store_data exState [1, 1, 1] [0, 0, 0]).1.last_options = exState.last_options :=
  C9_option_range exState [[1, 2], [3, 4], [5, 6]] [0, 0, 0] [0, 1, 0] (fun _ => 0)
    [1, 1, 1] [0, 0, 0] (by decide) (by decide) (by decide)

/-- Claim C10: store_data's reward adjustment acts on the caller's array: the
array visible to the caller after the call holds the adjusted rewards (also
the ones appended to the buffer), and feeding that same array to a second
store_data call charges the deliberation cost again (to every agent, since
the mask was reset to all-false by the first call). -/
theorem C10_in_place_reward (st : AgentState) (r d : List ℚ)
    (hlen : st.oc_mask.length = r.length) :
    (store_data st r d).2
        = List.zipWith (fun x m => if m then x else x - st.dc) r st.oc_mask ∧
    ((store_data st r d).1.buffer.getLast?).map Transition.r
        = some ((store_data st r d).2) ∧
    (store_data (store_data st r d).1 ((store_data st r d).2) d).2
        = ((store_data st r d).2).map (fun x => x - st.dc) := by
  refine ⟨store_data_reward st r d, store_data_last st r d, ?_⟩
  have hsnd : ∀ (st' : AgentState) (r' d' : List ℚ),
      (store_data st' r' d').2
        = List.zipWith (fun x m => x - (1 - boolToRat m) * st'.dc) r' st'.oc_mask :=
    fun _ _ _ => rfl
  have hoc : (store_data st r d).1.oc_mask = List.replicate st.oc_mask.length false := rfl
  have hdc : (store_data st r d).1.dc = st.dc := rfl
  have hlen1 : ((store_data st r d).2).length ≤ st.oc_mask.length := by
    rw [hsnd st r d, List.length_zipWith]
    omega
  rw [hsnd ((store_data st r d).1) ((store_data st r d).2) d, hoc, hdc,
    zipWith_replicate_right (fun x m => x - (1 - boolToRat m) * st.dc) false
      ((store_data st r d).2) st.oc_mask.length hlen1]
  simp [boolToRat]

/-- Witness for C10 at the concrete three-agent state. -/
theorem C10_witness :
    (store_data exState [1, 1, 1] [0, 0, 0]).2
        = List.zipWith (fun x m => if m then x else x - exState.dc) [1, 1, 1]
            exState.oc_mask ∧
    ((store_data exState [1, 1, 1] [0, 0, 0]).1.buffer.getLast?).map Transition.r
        = some ((store_data exState [1, 1, 1] [0, 0, 0]).2) ∧
    (store_data (store_data exState [1, 1, 1] [0, 0, 0]).1
        ((store_data exState [1, 1, 1] [0, 0, 0]).2) [0, 0, 0]).2
        = ((store_data exState [1, 1, 1] [0, 0, 0]).2).map (fun x => x - exState.dc) :=
  C10_in_place_reward exState [1, 1, 1] [0, 0, 0] (by decide)

end AOCSpec
